import Mathlib

/-!
# Verification of the luftblick calibration-file service

Shallow embedding of `src/app.py` and `src/models.py`: the filename parser,
the content extractor, the ingestion loop of `process_files`, and the pure
request/response behaviour of the HTTP endpoints.  Python strings are
modelled as Lean `String`/`List Char`; Python dicts as ordered association
lists with Python's insert-or-update-in-place semantics; exceptions as
`Except`; the database session as a list of records.
-/

set_option maxRecDepth 4000

/-! ## Filename parser (`app.py`, `parse_filename`, lines 17-31)

The Python code runs `re.match(r"Pandora(\d+)s(\d+)_CF_v(\d+)d(\d{8})\.txt", filename)`.
`re.match` anchors at the START of the string only.  Every `\d+` group in the
pattern is followed by a non-digit literal character, so greedy maximal-munch
matching is equivalent to the backtracking regex semantics, and the match is
modelled by the deterministic character parser below.  (`\d` is modelled as a
decimal digit `0`-`9`; the parser is a total function, so "never throws" holds
by construction.) -/

/-- Consume the maximal run of leading decimal digits, returning it and the rest. -/
def takeDigits : List Char → List Char × List Char
  | [] => ([], [])
  | c :: rest =>
    if c.isDigit then (c :: (takeDigits rest).1, (takeDigits rest).2)
    else ([], c :: rest)

/-- Consume a literal character sequence, returning the remainder, or `none`. -/
def stripLit : List Char → List Char → Option (List Char)
  | [], s => some s
  | _ :: _, [] => none
  | l :: ls, c :: cs => if c = l then stripLit ls cs else none

/-- Consume exactly `n` decimal digits (the regex `\d{n}`). -/
def takeExactDigits : Nat → List Char → Option (List Char × List Char)
  | 0, s => some ([], s)
  | _ + 1, [] => none
  | n + 1, c :: rest =>
    if c.isDigit then (takeExactDigits n rest).map (fun pr => (c :: pr.1, pr.2))
    else none

/-- The regex `Pandora(\d+)s(\d+)_CF_v(\d+)d(\d{8})\.txt` applied with
`re.match` semantics (anchored at the start of the input only): returns the
four captured groups, or `none` when the pattern does not match a prefix. -/
def parseFilenameAux (s0 : List Char) : Option (List Char × List Char × List Char × List Char) :=
  match stripLit "Pandora".toList s0 with
  | none => none
  | some s1 =>
    if (takeDigits s1).1 = [] then none else
    match stripLit ['s'] (takeDigits s1).2 with
    | none => none
    | some s2 =>
      if (takeDigits s2).1 = [] then none else
      match stripLit "_CF_v".toList (takeDigits s2).2 with
      | none => none
      | some s3 =>
        if (takeDigits s3).1 = [] then none else
        match stripLit ['d'] (takeDigits s3).2 with
        | none => none
        | some s4 =>
          match takeExactDigits 8 s4 with
          | none => none
          | some (d, s5) =>
            match stripLit ".txt".toList s5 with
            | none => none
            | some _ => some ((takeDigits s1).1, (takeDigits s2).1, (takeDigits s3).1, d)

/-- Function `parse_filename` from `app.py` (lines 17-31): `re.match` on the pattern,
returning `match.groups()` — the four raw captured substrings as strings —
or `None` (modelled as `none`) when the pattern does not match. -/
def parse_filename (filename : String) : Option (String × String × String × String) :=
  (parseFilenameAux filename.toList).map
    (fun t => (String.mk t.1, String.mk t.2.1, String.mk t.2.2.1, String.mk t.2.2.2))

/-- Python `int(...)` on a string of decimal digits. -/
def natOfDigits (l : List Char) : Nat :=
  l.foldl (fun n c => n * 10 + (c.toNat - 48)) 0

/-- Python `int(...)` on a digit string (used at `app.py` line 124: `int(version)`). -/
def strToNat (s : String) : Nat := natOfDigits s.toList

/-- The spec's Filename Parser component as realised by the code:
`parse_filename` with the `int(version)` conversion its caller performs at
`app.py` line 124 before storing the record. -/
def parseFilenameMeta (fn : String) : Option (String × String × Nat × String) :=
  (parse_filename fn).map (fun t => (t.1, t.2.1, strToNat t.2.2.1, t.2.2.2))

/-- Spec-side characterisation (from the spec's pattern
`Pandora<digits>s<digits>_CF_v<digits>d<8 digits>.txt`, anchored at the start
only): the input decomposes as the literal pieces interleaved with nonempty
digit runs, an exactly-8-digit date, and an arbitrary remainder. -/
def MatchesPatternAtStart (s : String) : Prop :=
  ∃ p q v d rest : List Char,
    s.toList =
      "Pandora".toList ++ p ++ ['s'] ++ q ++ "_CF_v".toList ++ v ++ ['d'] ++ d
        ++ ".txt".toList ++ rest
    ∧ p ≠ [] ∧ (∀ c ∈ p, c.isDigit = true)
    ∧ q ≠ [] ∧ (∀ c ∈ q, c.isDigit = true)
    ∧ v ≠ [] ∧ (∀ c ∈ v, c.isDigit = true)
    ∧ d.length = 8 ∧ (∀ c ∈ d, c.isDigit = true)

/-! ## Content extractor (`app.py`, `extract_file_details`, lines 34-49) -/

/-- Python `str.splitlines` (worker): splits at `\n`, `\r` and `\r\n`, with no
trailing empty line for a trailing terminator. -/
def splitlinesGo (acc : List Char) : List Char → List (List Char)
  | [] => if acc = [] then [] else [acc.reverse]
  | '\r' :: '\n' :: rest => acc.reverse :: splitlinesGo [] rest
  | '\n' :: rest => acc.reverse :: splitlinesGo [] rest
  | '\r' :: rest => acc.reverse :: splitlinesGo [] rest
  | c :: rest => splitlinesGo (c :: acc) rest

/-- Python `str.splitlines` on the line terminators used by the code. -/
def splitlines (s : String) : List (List Char) := splitlinesGo [] s.toList

/-- Python `str.strip()`: drop leading and trailing whitespace. -/
def pyStrip (l : List Char) : List Char :=
  ((l.dropWhile Char.isWhitespace).reverse.dropWhile Char.isWhitespace).reverse

/-- Python `line.split("->", 1)` combined with the `"->" in line` test:
`some (before, after)` at the FIRST occurrence of `->`, `none` when the line
does not contain the delimiter. -/
def splitFirstArrow : List Char → Option (List Char × List Char)
  | [] => none
  | '-' :: '>' :: rest => some ([], rest)
  | c :: rest => (splitFirstArrow rest).map (fun pr => (c :: pr.1, pr.2))

/-- First-match lookup in an association list (Python `dict.get` /
`key in dict` on our ordered-assoc-list model of dicts). -/
def lookupKV (k : String) : List (String × String) → Option String
  | [] => none
  | p :: rest => if p.1 = k then some p.2 else lookupKV k rest

/-- Python `d[key] = value` on an (insertion-ordered) dict: update the entry
in place when the key is present, else append a new entry. -/
def dictInsert (k v : String) (l : List (String × String)) : List (String × String) :=
  if (lookupKV k l).isSome then l.map (fun p => if p.1 = k then (k, v) else p)
  else l ++ [(k, v)]

/-- One iteration of the loop body of `extract_file_details`: lines without
`->` contribute nothing; otherwise split at the first `->`, strip both sides,
and assign into the dict. -/
def processLine (data : List (String × String)) (line : List Char) : List (String × String) :=
  match splitFirstArrow line with
  | none => data
  | some pr => dictInsert (String.mk (pyStrip pr.1)) (String.mk (pyStrip pr.2)) data

/-- Function `extract_file_details` from `app.py` (lines 34-49). -/
def extract_file_details (file_content : String) : List (String × String) :=
  (splitlines file_content).foldl processLine []

/-- The `(trimmedKey, trimmedValue)` pair a single line contributes, if any. -/
def lineEntry (line : List Char) : Option (String × String) :=
  (splitFirstArrow line).map (fun pr => (String.mk (pyStrip pr.1), String.mk (pyStrip pr.2)))

/-- Spec-side reading of the extractor's mapping: the value for `k` is the
value of the LAST delimited line whose trimmed key is `k` (last write wins). -/
def lastArrowValue (content : String) (k : String) : Option String :=
  (((splitlines content).filterMap lineEntry).reverse.find? (fun p => p.1 = k)).map (fun p => p.2)

/-! ## Data model (`models.py`, `CalibrationData`)

The BSON blob column is modelled by the decoded mapping it stores:
`set_content`/`get_content` are a `bson.dumps`/`bson.loads` round-trip pair,
so a record's `content` field here holds the key-value mapping itself. -/

/-- One `CalibrationData` row (`models.py`, lines 8-55). -/
structure CalibrationData where
  filename : String
  pandora_id : String
  spectrometer_id : String
  version : Nat
  validity_date : String
  content : List (String × String)
deriving DecidableEq

/-- Query `CalibrationData.query.filter_by(filename=fn).first()`: the first stored
record with the given filename, if any. -/
def findByFilename (fn : String) : List CalibrationData → Option CalibrationData
  | [] => none
  | r :: rest => if r.filename = fn then some r else findByFilename fn rest

/-- The list of stored filenames (for uniqueness statements). -/
def filenamesOf (db : List CalibrationData) : List String :=
  db.map (fun r => r.filename)

/-! ## Ingestion (`app.py`, `process_files`, lines 74-159)

A directory entry is a name together with the outcome of reading the file
(`open`/`read` may raise; the raised message is the fault-injection channel
for the per-file `except Exception` handler).  The session-visible database
(committed rows plus rows pending in the session, which `filter_by` sees via
autoflush) is one list; the final `db.session.commit()` is the identity on
this model. -/

deriving instance DecidableEq for Except

/-- Python `name.endswith(suffix)` (modelled over the character list, since
the comparison is what matters; a shorter name never ends with the suffix). -/
def strEndsWith (s suffix : String) : Bool :=
  s.toList.drop (s.toList.length - suffix.toList.length) == suffix.toList
    && suffix.toList.length ≤ s.toList.length

/-- A directory entry: its name and the result of reading its body. -/
structure FileEntry where
  name : String
  read : Except String String
deriving DecidableEq

/-- The running state of the `process_files` loop. -/
structure IngestState where
  db : List CalibrationData
  added : Nat
  skipped : Nat
  errors : Nat
  error_messages : List String
deriving DecidableEq

/-- The record built at `app.py` lines 120-127 (including `int(version)`). -/
def mkRecord (fn p q v d : String) (c : List (String × String)) : CalibrationData :=
  { filename := fn, pandora_id := p, spectrometer_id := q,
    version := strToNat v, validity_date := d, content := c }

/-- One iteration of the `for filename in os.listdir(directory)` loop of
`process_files`: skip non-`.txt` names; skip silently on parse no-match;
on a read fault the per-file `except` increments `errors` and appends
`"Error processing file <name>: <msg>"`; otherwise skip (counted) when the
filename is already stored, else insert the new record and count it added. -/
def processFile (st : IngestState) (e : FileEntry) : IngestState :=
  if strEndsWith e.name ".txt" = false then st
  else match parse_filename e.name with
  | none => st
  | some (p, q, v, d) =>
    match e.read with
    | Except.error msg =>
      { st with errors := st.errors + 1,
                error_messages := st.error_messages
                  ++ ["Error processing file " ++ e.name ++ ": " ++ msg] }
    | Except.ok content =>
      match findByFilename e.name st.db with
      | some _ => { st with skipped := st.skipped + 1 }
      | none =>
        { st with db := st.db ++ [mkRecord e.name p q v d (extract_file_details content)],
                  added := st.added + 1 }

/-- The whole `process_files` loop over a directory listing, starting from the
stored records `db` with all counters zero. -/
def process_files (entries : List FileEntry) (db : List CalibrationData) : IngestState :=
  entries.foldl processFile { db := db, added := 0, skipped := 0, errors := 0,
                              error_messages := [] }

/-- Entries that reach the dedupe-and-insert step: `.txt` name, pattern match,
readable body. -/
def entryOkB (e : FileEntry) : Bool :=
  strEndsWith e.name ".txt" && (parse_filename e.name).isSome
    && (match e.read with | Except.ok _ => true | Except.error _ => false)

/-- Entries whose body read faults after a successful pattern match. -/
def entryErrB (e : FileEntry) : Bool :=
  strEndsWith e.name ".txt" && (parse_filename e.name).isSome
    && (match e.read with | Except.ok _ => false | Except.error _ => true)

/-- Number of entries of a listing that reach the dedupe-and-insert step. -/
def countOk (es : List FileEntry) : Nat := (es.filter entryOkB).length

/-- Number of entries of a listing whose read faults. -/
def countErr (es : List FileEntry) : Nat := (es.filter entryErrB).length

/-! ## HTTP endpoints (`app.py`)

`abort(c, description=d)` raises a werkzeug `HTTPException`; each route wraps
its body in `try/except`, and the trailing `except Exception` catches
`HTTPException` too (it is an `Exception` subclass), returning the route's own
500 payload `{"error": "An unexpected error occurred", "details": str(e)}`.
Raised exceptions are modelled with `Except`; `str(e)` of an `HTTPException`
is `"<code> <name>: <description>"`. -/

/-- A raised werkzeug `HTTPException` (from `abort(code, description)`). -/
structure HttpRaise where
  code : Nat
  description : String
deriving DecidableEq

/-- Python `str(e)` for a werkzeug `HTTPException`. -/
def httpRaiseStr (e : HttpRaise) : String :=
  (if e.code = 400 then "400 Bad Request"
   else if e.code = 404 then "404 Not Found"
   else toString e.code) ++ ": " ++ e.description

/-- Response body of `/api/health`. -/
inductive HealthResp
  | healthy
  | unhealthy (details : String)
deriving DecidableEq

/-- Route `health_check` (`app.py`, lines 199-212) as a function of the probe
outcome (`CalibrationData.query.limit(1).all()` succeeding or raising):
`{"status": "healthy"}, 200` on success and
`{"status": "unhealthy", "details": str(e)}, 500` on failure. -/
def health_check (probe : Except String Unit) : HealthResp × Nat :=
  match probe with
  | Except.ok _ => (HealthResp.healthy, 200)
  | Except.error e => (HealthResp.unhealthy e, 500)

/-- Response body of `/api/get_content`. -/
inductive GetContentResp
  | record (filename pandora_id spectrometer_id : String) (version : Nat)
      (validity_date : String) (content : List (String × String))
  | errorBody (error details : String)
deriving DecidableEq

/-- The `try` block of `get_content` (`app.py`, lines 223-249): a missing or
falsy (empty) `filename` parameter raises `abort(400, ...)`, an unknown
filename raises `abort(404, ...)`, otherwise the decoded record is returned
with status 200. -/
def get_content_try (param : Option String) (db : List CalibrationData) :
    Except HttpRaise (GetContentResp × Nat) :=
  match param with
  | none => Except.error { code := 400, description := "Filename parameter is required" }
  | some filename =>
    if filename = "" then
      Except.error { code := 400, description := "Filename parameter is required" }
    else match findByFilename filename db with
    | none =>
      Except.error { code := 404,
                     description := "No calibration data found for filename: " ++ filename }
    | some entry =>
      Except.ok (GetContentResp.record entry.filename entry.pandora_id entry.spectrometer_id
        entry.version entry.validity_date entry.content, 200)

/-- Route `get_content` (`app.py`, lines 215-260): the `try` block wrapped in the
route's handlers, whose final `except Exception` catches the `HTTPException`
raised by `abort` and returns the 500 payload. -/
def get_content (param : Option String) (db : List CalibrationData) : GetContentResp × Nat :=
  match get_content_try param db with
  | Except.ok r => r
  | Except.error e =>
    (GetContentResp.errorBody "An unexpected error occurred" (httpRaiseStr e), 500)

/-- The JSON body of a `/api/query` request as `request.json` sees it. -/
inductive QueryBody
  /-- Missing or undecodable JSON: `request.json` itself raises a 400-level
  `HTTPException` inside the `try` block. -/
  | missing
  /-- JSON `null`: `keys` is `None`, which is falsy. -/
  | null
  /-- A JSON value that is not a list (object, string, number, ...). -/
  | notList
  /-- A JSON list of key strings. -/
  | list (keys : List String)
deriving DecidableEq

/-- Response body of `/api/query`. -/
inductive QueryResp
  | results (rows : List (String × List (String × String)))
  | errorBody (error details : String)
deriving DecidableEq

/-- The dict comprehension at `app.py` line 181:
`{key: content.get(key) for key in keys if key in content}`. -/
def matched_content (keys : List String) (content : List (String × String)) :
    List (String × String) :=
  keys.foldl
    (fun acc k =>
      match lookupKV k content with
      | some v => dictInsert k v acc
      | none => acc)
    []

/-- The response loop of `query_calibration_data` (`app.py`, lines 178-186):
one `{filename, matched_content}` row per record whose matched content is a
non-empty (truthy) dict, in record order. -/
def queryResponse (keys : List String) (db : List CalibrationData) :
    List (String × List (String × String)) :=
  db.filterMap (fun row =>
    if matched_content keys row.content = [] then none
    else some (row.filename, matched_content keys row.content))

/-- The `try` block of `query_calibration_data` (`app.py`, lines 170-187):
a missing body raises from `request.json` itself; a falsy or non-list `keys`
raises `abort(400, ...)`; otherwise the filtered rows are returned with 200. -/
def query_try (body : QueryBody) (db : List CalibrationData) :
    Except HttpRaise (QueryResp × Nat) :=
  match body with
  | QueryBody.missing =>
    Except.error { code := 400, description := "Failed to decode JSON object" }
  | QueryBody.null =>
    Except.error { code := 400, description := "Invalid or missing keys in request body" }
  | QueryBody.notList =>
    Except.error { code := 400, description := "Invalid or missing keys in request body" }
  | QueryBody.list [] =>
    Except.error { code := 400, description := "Invalid or missing keys in request body" }
  | QueryBody.list (k :: ks) =>
    Except.ok (QueryResp.results (queryResponse (k :: ks) db), 200)

/-- Route `query_calibration_data` (`app.py`, lines 162-196): the `try` block
wrapped in the route's handlers; the final `except Exception` catches the
`HTTPException` raised by `abort` (or by `request.json`) and returns the 500
payload. -/
def query_calibration_data (body : QueryBody) (db : List CalibrationData) : QueryResp × Nat :=
  match query_try body db with
  | Except.ok r => r
  | Except.error e =>
    (QueryResp.errorBody "An unexpected error occurred" (httpRaiseStr e), 500)

/-- A sample stored record used by concrete witnesses. -/
def sampleRecord : CalibrationData :=
  { filename := "Pandora1s2_CF_v3d20230101.txt", pandora_id := "1", spectrometer_id := "2",
    version := 3, validity_date := "20230101", content := [("a", "1"), ("b", "2")] }

/-- A sample directory listing used by concrete witnesses. -/
def sampleEntries : List FileEntry :=
  [{ name := "Pandora1s2_CF_v3d20230101.txt", read := Except.ok "a -> 1\nb->2" }]

/-! ## Parser correctness lemmas -/

theorem stripLit_eq_some (lit : List Char) :
    ∀ s r : List Char, stripLit lit s = some r ↔ s = lit ++ r := by
  induction lit with
  | nil => intro s r; simp [stripLit]
  | cons l ls ih =>
    intro s r
    cases s with
    | nil => simp [stripLit]
    | cons c cs =>
      by_cases h : c = l
      · subst h; simp [stripLit, ih]
      · simp [stripLit, h, Ne.symm h]

theorem takeDigits_append_eq (s : List Char) : (takeDigits s).1 ++ (takeDigits s).2 = s := by
  induction s with
  | nil => simp [takeDigits]
  | cons c rest ih =>
    by_cases h : c.isDigit
    · simp [takeDigits, h, ih]
    · simp [takeDigits, h]

theorem takeDigits_digits (s : List Char) : ∀ c ∈ (takeDigits s).1, c.isDigit = true := by
  induction s with
  | nil => simp [takeDigits]
  | cons c rest ih =>
    by_cases h : c.isDigit
    · simp only [takeDigits, h, if_true]
      intro x hx
      rcases List.mem_cons.mp hx with h1 | h2
      · subst h1; exact h
      · exact ih x h2
    · simp [takeDigits, h]

theorem takeDigits_of_digits (d r : List Char) (hd : ∀ c ∈ d, c.isDigit = true)
    (hr : ∀ c, r.head? = some c → c.isDigit = false) :
    takeDigits (d ++ r) = (d, r) := by
  induction d with
  | nil =>
    cases r with
    | nil => simp [takeDigits]
    | cons c cs => simp [takeDigits, hr c rfl]
  | cons c cs ih =>
    have hc : c.isDigit = true := hd c (by simp)
    have hrec := ih (fun x hx => hd x (by simp [hx]))
    simp [takeDigits, hc, hrec]

theorem takeExactDigits_eq_some :
    ∀ (n : Nat) (s d r : List Char),
      takeExactDigits n s = some (d, r) ↔
        (s = d ++ r ∧ d.length = n ∧ ∀ c ∈ d, c.isDigit = true) := by
  intro n
  induction n with
  | zero =>
    intro s d r
    constructor
    · intro h
      simp only [takeExactDigits, Option.some.injEq, Prod.mk.injEq] at h
      obtain ⟨h1, h2⟩ := h
      subst h1; subst h2; simp
    · rintro ⟨h1, h2, _⟩
      have hd : d = [] := List.length_eq_zero.mp h2
      subst hd; simp at h1; subst h1; simp [takeExactDigits]
  | succ n ih =>
    intro s d r
    cases s with
    | nil =>
      constructor
      · intro h; simp [takeExactDigits] at h
      · rintro ⟨h1, h2, _⟩
        exfalso
        cases d with
        | nil => simp at h2
        | cons d0 ds => simp at h1
    | cons c cs =>
      by_cases hc : c.isDigit
      · constructor
        · intro h
          simp only [takeExactDigits, hc, if_true, Option.map_eq_some'] at h
          obtain ⟨pr, hpr, heq⟩ := h
          obtain ⟨hd1, hd2⟩ := Prod.mk.injEq .. ▸ heq
          obtain ⟨hs, hlen, hdig⟩ := (ih cs pr.1 pr.2).mp (by rw [← Prod.mk.eta (p := pr)] at hpr; exact hpr)
          subst hd2
          constructor
          · rw [← hd1]; simp [hs]
          constructor
          · rw [← hd1]; simp [hlen]
          · intro x hx
            rw [← hd1] at hx
            rcases List.mem_cons.mp hx with h1 | h2
            · subst h1; exact hc
            · exact hdig x h2
        · rintro ⟨h1, h2, h3⟩
          cases d with
          | nil => simp at h2
          | cons d0 ds =>
            simp only [List.cons_append, List.cons.injEq] at h1
            obtain ⟨hc0, hcs⟩ := h1
            subst hc0
            have hrec : takeExactDigits n cs = some (ds, r) :=
              (ih cs ds r).mpr ⟨hcs, by simpa using h2, fun x hx => h3 x (by simp [hx])⟩
            simp [takeExactDigits, hc, hrec]
      · constructor
        · intro h; simp [takeExactDigits, hc] at h
        · rintro ⟨h1, h2, h3⟩
          cases d with
          | nil => simp at h2
          | cons d0 ds =>
            simp only [List.cons_append, List.cons.injEq] at h1
            obtain ⟨hc0, _⟩ := h1
            subst hc0
            exact absurd (h3 c (by simp)) (by simp [hc])

theorem parseFilenameAux_sound (s p q v d : List Char)
    (h : parseFilenameAux s = some (p, q, v, d)) :
    ∃ rest,
      s = "Pandora".toList ++ p ++ ['s'] ++ q ++ "_CF_v".toList ++ v ++ ['d'] ++ d
            ++ ".txt".toList ++ rest
        ∧ p ≠ [] ∧ (∀ c ∈ p, c.isDigit = true)
        ∧ q ≠ [] ∧ (∀ c ∈ q, c.isDigit = true)
        ∧ v ≠ [] ∧ (∀ c ∈ v, c.isDigit = true)
        ∧ d.length = 8 ∧ (∀ c ∈ d, c.isDigit = true) := by
  unfold parseFilenameAux at h
  split at h
  · exact absurd h (by simp)
  next s1 h1 =>
  split at h
  · exact absurd h (by simp)
  next e1 =>
  split at h
  · exact absurd h (by simp)
  next s2 h2 =>
  split at h
  · exact absurd h (by simp)
  next e2 =>
  split at h
  · exact absurd h (by simp)
  next s3 h3 =>
  split at h
  · exact absurd h (by simp)
  next e3 =>
  split at h
  · exact absurd h (by simp)
  next s4 h4 =>
  split at h
  · exact absurd h (by simp)
  next d0 s5 h5 =>
  split at h
  · exact absurd h (by simp)
  next s6 h6 =>
  simp only [Option.some.injEq, Prod.mk.injEq] at h
  obtain ⟨hp, hq, hv, hd⟩ := h
  obtain ⟨hs4, hd8, hdd⟩ := (takeExactDigits_eq_some 8 s4 d0 s5).mp h5
  have hs : s = "Pandora".toList ++ s1 := (stripLit_eq_some _ _ _).mp h1
  have h2s : (takeDigits s1).2 = 's' :: s2 := by
    have := (stripLit_eq_some _ _ _).mp h2; simpa using this
  have h4s : (takeDigits s2).2 = "_CF_v".toList ++ s3 := (stripLit_eq_some _ _ _).mp h3
  have h6s : (takeDigits s3).2 = 'd' :: s4 := by
    have := (stripLit_eq_some _ _ _).mp h4; simpa using this
  have h8s : s5 = ".txt".toList ++ s6 := (stripLit_eq_some _ _ _).mp h6
  have key : s = "Pandora".toList ++ ((takeDigits s1).1 ++ ('s' :: ((takeDigits s2).1
      ++ ("_CF_v".toList ++ ((takeDigits s3).1 ++ ('d' :: (d0
      ++ (".txt".toList ++ s6)))))))) := by
    rw [hs]
    congr 1
    conv_lhs => rw [← takeDigits_append_eq s1]
    congr 1
    rw [h2s]
    congr 1
    conv_lhs => rw [← takeDigits_append_eq s2]
    congr 1
    rw [h4s]
    congr 1
    conv_lhs => rw [← takeDigits_append_eq s3]
    congr 1
    rw [h6s]
    congr 1
    rw [hs4, h8s]
  refine ⟨s6, ?_, ?_, ?_, ?_, ?_, ?_, ?_, ?_, ?_⟩
  · rw [key, ← hp, ← hq, ← hv, ← hd]
    simp [List.append_assoc]
  · rw [← hp]; exact e1
  · rw [← hp]; exact takeDigits_digits s1
  · rw [← hq]; exact e2
  · rw [← hq]; exact takeDigits_digits s2
  · rw [← hv]; exact e3
  · rw [← hv]; exact takeDigits_digits s3
  · rw [← hd]; exact hd8
  · rw [← hd]; exact hdd

theorem parseFilenameAux_complete (p q v d rest : List Char)
    (hp : p ≠ []) (hpd : ∀ c ∈ p, c.isDigit = true)
    (hq : q ≠ []) (hqd : ∀ c ∈ q, c.isDigit = true)
    (hv : v ≠ []) (hvd : ∀ c ∈ v, c.isDigit = true)
    (hd8 : d.length = 8) (hdd : ∀ c ∈ d, c.isDigit = true) :
    parseFilenameAux ("Pandora".toList ++ p ++ ['s'] ++ q ++ "_CF_v".toList ++ v ++ ['d'] ++ d
      ++ ".txt".toList ++ rest) = some (p, q, v, d) := by
  have hA : stripLit "Pandora".toList
      ("Pandora".toList ++ p ++ ['s'] ++ q ++ "_CF_v".toList ++ v ++ ['d'] ++ d
        ++ ".txt".toList ++ rest)
      = some (p ++ 's' :: (q ++ ("_CF_v".toList ++ (v ++ 'd' :: (d ++ (".txt".toList ++ rest)))))) :=
    (stripLit_eq_some _ _ _).mpr (by simp [List.append_assoc])
  have hB : takeDigits (p ++ 's' :: (q ++ ("_CF_v".toList ++ (v ++ 'd' :: (d ++ (".txt".toList ++ rest))))))
      = (p, 's' :: (q ++ ("_CF_v".toList ++ (v ++ 'd' :: (d ++ (".txt".toList ++ rest)))))) := by
    apply takeDigits_of_digits _ _ hpd
    intro c hc
    simp only [List.head?] at hc
    injection hc with hc
    subst hc; decide
  have hC : stripLit ['s'] ('s' :: (q ++ ("_CF_v".toList ++ (v ++ 'd' :: (d ++ (".txt".toList ++ rest))))))
      = some (q ++ ("_CF_v".toList ++ (v ++ 'd' :: (d ++ (".txt".toList ++ rest))))) :=
    (stripLit_eq_some _ _ _).mpr rfl
  have hD : takeDigits (q ++ ("_CF_v".toList ++ (v ++ 'd' :: (d ++ (".txt".toList ++ rest)))))
      = (q, "_CF_v".toList ++ (v ++ 'd' :: (d ++ (".txt".toList ++ rest)))) := by
    apply takeDigits_of_digits _ _ hqd
    intro c hc
    rw [show ("_CF_v".toList ++ (v ++ 'd' :: (d ++ (".txt".toList ++ rest))))
        = '_' :: ("CF_v".toList ++ (v ++ 'd' :: (d ++ (".txt".toList ++ rest)))) from rfl] at hc
    simp only [List.head?] at hc
    injection hc with hc
    subst hc; decide
  have hE : stripLit "_CF_v".toList ("_CF_v".toList ++ (v ++ 'd' :: (d ++ (".txt".toList ++ rest))))
      = some (v ++ 'd' :: (d ++ (".txt".toList ++ rest))) :=
    (stripLit_eq_some _ _ _).mpr rfl
  have hF : takeDigits (v ++ 'd' :: (d ++ (".txt".toList ++ rest)))
      = (v, 'd' :: (d ++ (".txt".toList ++ rest))) := by
    apply takeDigits_of_digits _ _ hvd
    intro c hc
    simp only [List.head?] at hc
    injection hc with hc
    subst hc; decide
  have hG : stripLit ['d'] ('d' :: (d ++ (".txt".toList ++ rest)))
      = some (d ++ (".txt".toList ++ rest)) :=
    (stripLit_eq_some _ _ _).mpr rfl
  have hH : takeExactDigits 8 (d ++ (".txt".toList ++ rest)) = some (d, ".txt".toList ++ rest) :=
    (takeExactDigits_eq_some 8 _ d _).mpr ⟨rfl, hd8, hdd⟩
  have hI : stripLit ".txt".toList (".txt".toList ++ rest) = some rest :=
    (stripLit_eq_some _ _ _).mpr rfl
  unfold parseFilenameAux
  rw [hA]
  simp only [hB, hC, hD, hE, hF, hG, hH, hI, if_neg hp, if_neg hq, if_neg hv]

theorem parse_filename_isSome_iff (s : String) :
    (parse_filename s).isSome = true ↔ MatchesPatternAtStart s := by
  constructor
  · intro h
    obtain ⟨t, ht⟩ := Option.isSome_iff_exists.mp h
    unfold parse_filename at ht
    rw [Option.map_eq_some'] at ht
    obtain ⟨u, hu, _⟩ := ht
    obtain ⟨lp, lq, lv, ld⟩ := u
    obtain ⟨rest, hdec, h1, h2, h3, h4, h5, h6, h7, h8⟩ :=
      parseFilenameAux_sound _ _ _ _ _ hu
    exact ⟨lp, lq, lv, ld, rest, hdec, h1, h2, h3, h4, h5, h6, h7, h8⟩
  · rintro ⟨p, q, v, d, rest, hdec, h1, h2, h3, h4, h5, h6, h7, h8⟩
    have := parseFilenameAux_complete p q v d rest h1 h2 h3 h4 h5 h6 h7 h8
    unfold parse_filename
    rw [hdec, this]
    rfl

/-- Claim C1 counterexample: The claim says any string with a matching prefix
followed by extra trailing characters yields no-match; but `re.match` anchors
only at the start, so `"Pandora1s2_CF_v3d20230101.txt.txt"` is accepted with
groups `("1", "2", "3", "20230101")`. -/
theorem parse_filename_accepts_trailing_chars :
    parse_filename "Pandora1s2_CF_v3d20230101.txt.txt" = some ("1", "2", "3", "20230101")
    ∧ parse_filename "Pandora1s2_CF_v3d20230101.txt.txt" ≠ none := by
  decide

/-- Claim C1 (amended): `parse_filename` (a total function, so it never throws)
returns the no-match signal exactly for the strings that do NOT have a prefix
matching `Pandora<digits>s<digits>_CF_v<digits>d<8 digits>.txt`: the pattern is
anchored at the start only, so a matching prefix followed by extra trailing
characters is accepted rather than rejected. -/
theorem parse_filename_none_iff_unmatched (s : String) :
    parse_filename s = none ↔ ¬ MatchesPatternAtStart s := by
  rw [← parse_filename_isSome_iff]
  cases h : parse_filename s <;> simp [h]

/-- Claim C1 witness: The amended theorem evaluated at `"bad.txt"`. -/
theorem parse_filename_none_iff_unmatched_witness :
    parse_filename "bad.txt" = none ↔ ¬ MatchesPatternAtStart "bad.txt" :=
  parse_filename_none_iff_unmatched "bad.txt"

/-- Claim C9: On a filename matching the pattern the parser yields the raw digit
substrings for instrument id, spectrometer id and validity date (kept as
strings), with the version converted to an integer by the caller's
`int(version)` (the spec's Filename Parser component, `parseFilenameMeta`);
in particular `"Pandora1s2_CF_v3d20230101.txt"` yields
`("1", "2", 3, "20230101")`, and in general the four groups are exactly the
digit runs of the matched pattern occurrence. -/
theorem parse_filename_fields_spec :
    parseFilenameMeta "Pandora1s2_CF_v3d20230101.txt" = some ("1", "2", 3, "20230101")
    ∧ ∀ fn p q v d : String, parse_filename fn = some (p, q, v, d) →
        parseFilenameMeta fn = some (p, q, strToNat v, d)
        ∧ (∀ c ∈ p.toList, c.isDigit = true) ∧ (∀ c ∈ q.toList, c.isDigit = true)
        ∧ (∀ c ∈ v.toList, c.isDigit = true)
        ∧ d.toList.length = 8 ∧ (∀ c ∈ d.toList, c.isDigit = true)
        ∧ ∃ rest, fn.toList = "Pandora".toList ++ p.toList ++ ['s'] ++ q.toList
            ++ "_CF_v".toList ++ v.toList ++ ['d'] ++ d.toList ++ ".txt".toList ++ rest := by
  constructor
  · decide
  · intro fn p q v d h
    have h' := h
    unfold parse_filename at h'
    rw [Option.map_eq_some'] at h'
    obtain ⟨u, hu, hf⟩ := h'
    obtain ⟨lp, lq, lv, ld⟩ := u
    simp only [Prod.mk.injEq] at hf
    obtain ⟨hfp, hfq, hfv, hfd⟩ := hf
    have hpl : p.toList = lp := by rw [← hfp]; rfl
    have hql : q.toList = lq := by rw [← hfq]; rfl
    have hvl : v.toList = lv := by rw [← hfv]; rfl
    have hdl : d.toList = ld := by rw [← hfd]; rfl
    obtain ⟨rest, hdec, _, h2, _, h4, _, h6, h7, h8⟩ :=
      parseFilenameAux_sound _ _ _ _ _ hu
    refine ⟨by simp [parseFilenameMeta, h], ?_, ?_, ?_, ?_, ?_, ?_⟩
    · rw [hpl]; exact h2
    · rw [hql]; exact h4
    · rw [hvl]; exact h6
    · rw [hdl]; exact h7
    · rw [hdl]; exact h8
    · exact ⟨rest, by rw [hpl, hql, hvl, hdl]; exact hdec⟩

/-- Claim C9 witness: The general part of the theorem applied at a concrete
matching filename. -/
theorem parse_filename_fields_witness :
    parseFilenameMeta "Pandora12s3_CF_v45d19991231.txt" = some ("12", "3", 45, "19991231") :=
  (parse_filename_fields_spec.2 "Pandora12s3_CF_v45d19991231.txt" "12" "3" "45" "19991231"
    (by decide)).1

/-! ## Health check (C2) -/

/-- Claim C2 counterexample: The claim says a probe failure yields HTTP 200 with
an "unhealthy" body, never a 500; but line 212 of `app.py` returns the
unhealthy body with status **500**. -/
theorem health_check_failure_is_500 :
    health_check (Except.error "database is down")
      = (HealthResp.unhealthy "database is down", 500)
    ∧ (health_check (Except.error "database is down")).2 ≠ 200 := by
  decide

/-- Claim C2 (amended): On a probe failure `/api/health` returns HTTP **500**
whose body carries status "unhealthy" with details (the body does distinguish
the probe outcome, but the HTTP status is 500, not 200); a successful probe
yields 200 "healthy". -/
theorem health_check_spec (e : String) :
    health_check (Except.error e) = (HealthResp.unhealthy e, 500)
    ∧ health_check (Except.ok ()) = (HealthResp.healthy, 200) :=
  ⟨rfl, rfl⟩

/-! ## `/api/get_content` (C3) -/

/-- Claim C3 (code bug): `abort(404)`/`abort(400)` raise a werkzeug
`HTTPException`, which the route's own trailing `except Exception` catches, so
an unknown filename and a missing filename parameter both produce HTTP **500**
with the "An unexpected error occurred" payload — never the 404/400 that the
`abort` descriptions and the registered `errorhandler(404)`/`errorhandler(400)`
clearly intend.  The endpoint can only ever answer 200 or 500. -/
theorem get_content_aborts_become_500 :
    get_content (some "missing.txt") []
      = (GetContentResp.errorBody "An unexpected error occurred"
          "404 Not Found: No calibration data found for filename: missing.txt", 500)
    ∧ get_content none []
      = (GetContentResp.errorBody "An unexpected error occurred"
          "400 Bad Request: Filename parameter is required", 500)
    ∧ ∀ (param : Option String) (db : List CalibrationData),
        (get_content param db).2 = 200 ∨ (get_content param db).2 = 500 := by
  refine ⟨by decide, by decide, ?_⟩
  intro param db
  cases param with
  | none => right; rfl
  | some fn =>
    by_cases h : fn = ""
    · right; simp [get_content, get_content_try, h]
    · cases hf : findByFilename fn db with
      | none => right; simp [get_content, get_content_try, h, hf]
      | some entry => left; simp [get_content, get_content_try, h, hf]

/-! ## `/api/query` request validation (C4) -/

/-- Claim C4 (code bug): For an empty, missing, or non-list JSON body the
`abort(400, ...)` (or the 400-level exception raised by `request.json` itself)
is caught by the route's trailing `except Exception`, so the endpoint answers
HTTP **500** with the "An unexpected error occurred" payload — never the 400
the `abort` call and the registered `errorhandler(400)` intend.  No input at
all can make this endpoint answer 400. -/
theorem query_invalid_body_becomes_500 :
    query_calibration_data (QueryBody.list []) []
      = (QueryResp.errorBody "An unexpected error occurred"
          "400 Bad Request: Invalid or missing keys in request body", 500)
    ∧ (query_calibration_data QueryBody.missing []).2 = 500
    ∧ (query_calibration_data QueryBody.null []).2 = 500
    ∧ (query_calibration_data QueryBody.notList []).2 = 500
    ∧ ∀ (body : QueryBody) (db : List CalibrationData),
        (query_calibration_data body db).2 ≠ 400 := by
  refine ⟨by decide, by decide, by decide, by decide, ?_⟩
  intro body db
  cases body with
  | missing => simp [query_calibration_data, query_try]
  | null => simp [query_calibration_data, query_try]
  | notList => simp [query_calibration_data, query_try]
  | list keys =>
    cases keys with
    | nil => simp [query_calibration_data, query_try]
    | cons k ks => simp [query_calibration_data, query_try]

/-! ## Content extractor: empty keys (C10) -/

/-- Claim C10: The extractor does not filter out empty keys: a line whose first
`->` is preceded only by whitespace (or by nothing) stores an entry under the
empty-string key, with the trimmed (possibly empty) remainder as value. -/
theorem extract_file_details_empty_key :
    extract_file_details "-> v" = [("", "v")]
    ∧ extract_file_details "->" = [("", "")]
    ∧ extract_file_details "  -> v" = [("", "v")]
    ∧ extract_file_details "x -> 1\n-> v" = [("x", "1"), ("", "v")] := by
  decide

/-! ## Dict-model lemmas -/

theorem lookupKV_append (k : String) (l1 l2 : List (String × String)) :
    lookupKV k (l1 ++ l2) = ((lookupKV k l1).or (lookupKV k l2)) := by
  induction l1 with
  | nil => simp [lookupKV]
  | cons p rest ih =>
    by_cases h : p.1 = k
    · simp [lookupKV, h]
    · simp [lookupKV, h, ih]

theorem lookupKV_mapUpdate_ne (k v k' : String) (l : List (String × String)) (hk : k' ≠ k) :
    lookupKV k' (l.map (fun p => if p.1 = k then (k, v) else p)) = lookupKV k' l := by
  induction l with
  | nil => simp [lookupKV]
  | cons p rest ih =>
    by_cases hp : p.1 = k
    · rw [List.map_cons, if_pos hp]
      rw [lookupKV, if_neg (fun h => hk h.symm), ih,
        lookupKV, if_neg (by rw [hp]; exact fun h => hk h.symm)]
    · rw [List.map_cons, if_neg hp]
      rw [lookupKV, lookupKV, ih]

theorem lookupKV_mapUpdate_eq (k v : String) (l : List (String × String))
    (hs : (lookupKV k l).isSome = true) :
    lookupKV k (l.map (fun p => if p.1 = k then (k, v) else p)) = some v := by
  induction l with
  | nil => simp [lookupKV] at hs
  | cons p rest ih =>
    by_cases hp : p.1 = k
    · rw [List.map_cons, if_pos hp, lookupKV, if_pos rfl]
    · have hs' : (lookupKV k rest).isSome = true := by
        rw [lookupKV, if_neg hp] at hs; exact hs
      rw [List.map_cons, if_neg hp, lookupKV, if_neg hp, ih hs']

theorem dictInsert_lookupKV (k v k' : String) (l : List (String × String)) :
    lookupKV k' (dictInsert k v l) = if k' = k then some v else lookupKV k' l := by
  unfold dictInsert
  by_cases hs : (lookupKV k l).isSome = true
  · rw [if_pos hs]
    by_cases hk : k' = k
    · subst hk; rw [if_pos rfl]; exact lookupKV_mapUpdate_eq k' v l hs
    · rw [if_neg hk]; exact lookupKV_mapUpdate_ne k v k' l hk
  · rw [if_neg hs, lookupKV_append]
    by_cases hk : k' = k
    · subst hk
      have hn : lookupKV k' l = none := Option.not_isSome_iff_eq_none.mp hs
      rw [hn, if_pos rfl]
      simp [lookupKV]
    · rw [if_neg hk]
      cases hl : lookupKV k' l with
      | some w => simp
      | none => simp [lookupKV, Ne.symm hk]

theorem foldl_dictInsert_lookupKV (pairs : List (String × String))
    (init : List (String × String)) (k : String) :
    lookupKV k (pairs.foldl (fun d p => dictInsert p.1 p.2 d) init)
      = match pairs.reverse.find? (fun p => p.1 = k) with
        | some p => some p.2
        | none => lookupKV k init := by
  induction pairs generalizing init with
  | nil => simp
  | cons p ps ih =>
    rw [List.foldl_cons, ih, List.reverse_cons, List.find?_append]
    cases hfind : ps.reverse.find? (fun q => decide (q.1 = k)) with
    | some q => simp
    | none =>
      simp only [Option.none_or]
      by_cases hk : p.1 = k
      · have h1 : [p].find? (fun q => decide (q.1 = k)) = some p := by
          simp [List.find?, hk]
        rw [h1, dictInsert_lookupKV, if_pos hk.symm]
      · have h1 : [p].find? (fun q => decide (q.1 = k)) = none := by
          simp [List.find?, hk]
        rw [h1, dictInsert_lookupKV, if_neg (fun h => hk h.symm)]

theorem extract_foldl_eq (lines : List (List Char)) (init : List (String × String)) :
    lines.foldl processLine init
      = (lines.filterMap lineEntry).foldl (fun d p => dictInsert p.1 p.2 d) init := by
  induction lines generalizing init with
  | nil => rfl
  | cons line rest ih =>
    cases h : splitFirstArrow line with
    | none => simp [processLine, lineEntry, h, ih]
    | some pr => simp [processLine, lineEntry, h, ih]

/-! ## Content extractor specification (C5) -/

/-- Claim C5: The extractor behaves exactly as specified: the concrete example
from the spec holds, empty input yields the empty mapping, and in general the
value stored under any key `k` is the value of the last line containing `->`
whose trimmed key (text before the FIRST `->`, stripped) equals `k`, with the
trimmed remainder as value — later lines overwrite earlier ones, lines without
`->` contribute nothing. -/
theorem extract_file_details_spec :
    extract_file_details "a -> 1\nb->2\nignored\na -> 3" = [("a", "3"), ("b", "2")]
    ∧ extract_file_details "" = []
    ∧ ∀ (content : String) (k : String),
        lookupKV k (extract_file_details content) = lastArrowValue content k := by
  refine ⟨by decide, by decide, ?_⟩
  intro content k
  unfold extract_file_details lastArrowValue
  rw [extract_foldl_eq, foldl_dictInsert_lookupKV]
  cases hf : ((splitlines content).filterMap lineEntry).reverse.find?
      (fun p => decide (p.1 = k)) with
  | some p => simp [hf]
  | none => simp [hf, lookupKV]

/-! ## Ingestion accounting (C6) -/

/-- Claim C6: Per-file accounting of the ingestion loop, for every `.txt`
directory entry: a pattern no-match leaves the state untouched (no counter);
a match with an existing record increments `skipped` only; a match with a new
filename appends exactly the new record and increments `added` only; a read
fault increments `errors` only and appends a message containing the filename;
and the loop always continues with the remaining entries afterwards. -/
theorem processFile_accounting (st : IngestState) (e : FileEntry)
    (htxt : strEndsWith e.name ".txt" = true) :
    (parse_filename e.name = none → processFile st e = st)
    ∧ (∀ p q v d c, parse_filename e.name = some (p, q, v, d) → e.read = Except.ok c →
        (findByFilename e.name st.db).isSome = true →
        processFile st e = { st with skipped := st.skipped + 1 })
    ∧ (∀ p q v d c, parse_filename e.name = some (p, q, v, d) → e.read = Except.ok c →
        findByFilename e.name st.db = none →
        processFile st e = { st with
          db := st.db ++ [mkRecord e.name p q v d (extract_file_details c)],
          added := st.added + 1 })
    ∧ (∀ p q v d m, parse_filename e.name = some (p, q, v, d) → e.read = Except.error m →
        processFile st e = { st with
          errors := st.errors + 1,
          error_messages := st.error_messages
            ++ ["Error processing file " ++ e.name ++ ": " ++ m] }
        ∧ ∃ l r, ("Error processing file " ++ e.name ++ ": " ++ m).toList
            = l ++ e.name.toList ++ r)
    ∧ ∀ rest : List FileEntry,
        List.foldl processFile st (e :: rest) = List.foldl processFile (processFile st e) rest := by
  refine ⟨?_, ?_, ?_, ?_, fun rest => rfl⟩
  · intro h
    simp [processFile, htxt, h]
  · intro p q v d c hp hr hf
    obtain ⟨entry, he⟩ := Option.isSome_iff_exists.mp hf
    simp [processFile, htxt, hp, hr, he]
  · intro p q v d c hp hr hf
    simp [processFile, htxt, hp, hr, hf]
  · intro p q v d m hp hr
    refine ⟨by simp [processFile, htxt, hp, hr], ?_⟩
    refine ⟨("Error processing file ").toList, (": " ++ m).toList, ?_⟩
    rw [show ("Error processing file " ++ e.name ++ ": " ++ m)
          = "Error processing file " ++ e.name ++ (": " ++ m) by
        rw [String.append_assoc]]
    simp [String.toList, String.data_append]

/-- Claim C6 witness: The add branch of the accounting theorem at a concrete
state and entry. -/
theorem processFile_accounting_witness :
    processFile { db := [], added := 0, skipped := 0, errors := 0, error_messages := [] }
        { name := "Pandora1s2_CF_v3d20230101.txt", read := Except.ok "a -> 1\nb->2" }
      = { db := [mkRecord "Pandora1s2_CF_v3d20230101.txt" "1" "2" "3" "20230101"
            (extract_file_details "a -> 1\nb->2")],
          added := 1, skipped := 0, errors := 0, error_messages := [] } := by
  have h := (processFile_accounting
      { db := [], added := 0, skipped := 0, errors := 0, error_messages := [] }
      { name := "Pandora1s2_CF_v3d20230101.txt", read := Except.ok "a -> 1\nb->2" }
      (by decide)).2.2.1
  exact h "1" "2" "3" "20230101" "a -> 1\nb->2" (by decide) rfl rfl

/-! ## Filter-by-keys (C7) -/

theorem matchedLoop_lookup (keys : List String) (content : List (String × String)) :
    ∀ (acc : List (String × String)) (k : String),
      lookupKV k (keys.foldl (fun a kk =>
          match lookupKV kk content with
          | some v => dictInsert kk v a
          | none => a) acc)
        = if k ∈ keys ∧ (lookupKV k content).isSome = true then lookupKV k content
          else lookupKV k acc := by
  induction keys with
  | nil => intro acc k; simp
  | cons k0 ks ih =>
    intro acc k
    rw [List.foldl_cons]
    cases h0 : lookupKV k0 content with
    | none =>
      rw [ih]
      by_cases hk : k = k0
      · subst hk; simp [h0]
      · simp [List.mem_cons, hk]
    | some v =>
      rw [ih]
      by_cases hk : k = k0
      · subst hk
        rw [dictInsert_lookupKV, if_pos rfl]
        simp only [h0, List.mem_cons, true_or, Option.isSome_some, and_true, true_and]
        by_cases hmem : k ∈ ks <;> simp [hmem, h0]
      · rw [dictInsert_lookupKV, if_neg hk]
        simp [List.mem_cons, hk]

theorem matched_content_lookupKV (keys : List String) (content : List (String × String))
    (k : String) :
    lookupKV k (matched_content keys content)
      = if k ∈ keys then lookupKV k content else none := by
  unfold matched_content
  rw [matchedLoop_lookup]
  by_cases hm : k ∈ keys
  · by_cases hs : (lookupKV k content).isSome = true
    · simp [hm, hs]
    · have hn : lookupKV k content = none := Option.not_isSome_iff_eq_none.mp hs
      simp [hm, hs, hn, lookupKV]
  · simp [hm, lookupKV]

theorem matchedLoop_no_hits (keys : List String) (content : List (String × String))
    (h : ∀ k ∈ keys, lookupKV k content = none) :
    ∀ acc, keys.foldl (fun a kk =>
        match lookupKV kk content with
        | some v => dictInsert kk v a
        | none => a) acc = acc := by
  induction keys with
  | nil => intro acc; rfl
  | cons k0 ks ih =>
    intro acc
    rw [List.foldl_cons, h k0 (List.mem_cons_self k0 ks)]
    exact ih (fun k hk => h k (List.mem_cons_of_mem k0 hk)) acc

theorem matched_content_empty_iff (keys : List String) (content : List (String × String)) :
    matched_content keys content = [] ↔ ∀ k ∈ keys, lookupKV k content = none := by
  constructor
  · intro h k hk
    have hc := matched_content_lookupKV keys content k
    rw [h, if_pos hk] at hc
    exact hc.symm
  · intro h
    unfold matched_content
    exact matchedLoop_no_hits keys content h []

theorem queryResponse_filter_map (keys : List String) (db : List CalibrationData) :
    queryResponse keys db
      = (db.filter (fun r => !(matched_content keys r.content).isEmpty)).map
          (fun r => (r.filename, matched_content keys r.content)) := by
  induction db with
  | nil => rfl
  | cons r rest ih =>
    by_cases h : matched_content keys r.content = []
    · simp [queryResponse, List.filterMap_cons, List.filter_cons, h, List.isEmpty_iff] at ih ⊢
      exact ih
    · simp [queryResponse, List.filterMap_cons, List.filter_cons, h, List.isEmpty_iff] at ih ⊢
      exact ih

/-- Claim C7: For every store and every non-empty key list, the filter-by-keys
operation returns exactly the records whose content contains at least one
requested key (a record with zero matches is omitted: its matched content is
empty exactly when no requested key occurs in its content), and the returned
`matched_content` is the restriction of the record's content to the requested
keys: looking up `k` in it gives the record's value when `k` was requested and
present, and nothing otherwise. -/
theorem query_filter_by_keys (keys : List String) (db : List CalibrationData)
    (_hk : keys ≠ []) :
    queryResponse keys db
      = (db.filter (fun r => !(matched_content keys r.content).isEmpty)).map
          (fun r => (r.filename, matched_content keys r.content))
    ∧ (∀ r : CalibrationData,
        (matched_content keys r.content = [] ↔ ∀ k ∈ keys, lookupKV k r.content = none))
    ∧ (∀ (r : CalibrationData) (k : String),
        lookupKV k (matched_content keys r.content)
          = if k ∈ keys then lookupKV k r.content else none) :=
  ⟨queryResponse_filter_map keys db,
   fun r => matched_content_empty_iff keys r.content,
   fun r k => matched_content_lookupKV keys r.content k⟩

/-- Claim C7 witness: The theorem applied to the spec's own example: a record
with content `{"a": "1", "b": "2"}` and requested keys `["a", "c"]`. -/
theorem query_filter_by_keys_witness :
    (["a", "c"] : List String) ≠ []
    ∧ lookupKV "a" (matched_content ["a", "c"] sampleRecord.content)
        = if "a" ∈ ["a", "c"] then lookupKV "a" sampleRecord.content else none :=
  ⟨by decide,
   (query_filter_by_keys ["a", "c"] [sampleRecord] (by decide)).2.2 sampleRecord "a"⟩

/-! ## Idempotence of ingestion (C8) -/

theorem findByFilename_append (fn : String) (l1 l2 : List CalibrationData) :
    findByFilename fn (l1 ++ l2)
      = ((findByFilename fn l1).or (findByFilename fn l2)) := by
  induction l1 with
  | nil => simp [findByFilename]
  | cons r rest ih =>
    by_cases h : r.filename = fn
    · simp [findByFilename, h]
    · simp [findByFilename, h, ih]

theorem processFile_cases (st : IngestState) (e : FileEntry) :
    (entryOkB e = false ∧ entryErrB e = false ∧ processFile st e = st)
    ∨ (entryErrB e = true ∧ entryOkB e = false ∧ ∃ ms, processFile st e
        = { st with errors := st.errors + 1, error_messages := st.error_messages ++ [ms] })
    ∨ (entryOkB e = true ∧ entryErrB e = false ∧
        (((findByFilename e.name st.db).isSome = true
            ∧ processFile st e = { st with skipped := st.skipped + 1 })
         ∨ ∃ r, findByFilename e.name st.db = none ∧ r.filename = e.name
            ∧ processFile st e = { st with db := st.db ++ [r], added := st.added + 1 })) := by
  cases h1 : strEndsWith e.name ".txt" with
  | false =>
    exact Or.inl ⟨by simp [entryOkB, h1], by simp [entryErrB, h1], by simp [processFile, h1]⟩
  | true =>
    cases hp : parse_filename e.name with
    | none =>
      exact Or.inl ⟨by simp [entryOkB, h1, hp], by simp [entryErrB, h1, hp],
        by simp [processFile, h1, hp]⟩
    | some t =>
      obtain ⟨p, q, v, d⟩ := t
      cases hr : e.read with
      | error m =>
        refine Or.inr (Or.inl ⟨by simp [entryErrB, h1, hp, hr],
          by simp [entryOkB, h1, hp, hr], ?_⟩)
        exact ⟨"Error processing file " ++ e.name ++ ": " ++ m,
          by simp [processFile, h1, hp, hr]⟩
      | ok c =>
        refine Or.inr (Or.inr ⟨by simp [entryOkB, h1, hp, hr],
          by simp [entryErrB, h1, hp, hr], ?_⟩)
        cases hf : findByFilename e.name st.db with
        | some r =>
          exact Or.inl ⟨rfl, by simp [processFile, h1, hp, hr, hf]⟩
        | none =>
          exact Or.inr ⟨mkRecord e.name p q v d (extract_file_details c), rfl, rfl,
            by simp [processFile, h1, hp, hr, hf]⟩

theorem processFile_db_mem (st : IngestState) (e : FileEntry) (fn : String)
    (h : (findByFilename fn st.db).isSome = true) :
    (findByFilename fn (processFile st e).db).isSome = true := by
  rcases processFile_cases st e with ⟨_, _, heq⟩ | ⟨_, _, ⟨ms, heq⟩⟩ | ⟨_, _, hcase⟩
  · rw [heq]; exact h
  · rw [heq]; exact h
  · rcases hcase with ⟨_, heq⟩ | ⟨r, _, _, heq⟩
    · rw [heq]; exact h
    · rw [heq]
      show (findByFilename fn (st.db ++ [r])).isSome = true
      rw [findByFilename_append]
      obtain ⟨x, hx⟩ := Option.isSome_iff_exists.mp h
      rw [hx]
      rfl

theorem foldl_db_mem (es : List FileEntry) :
    ∀ (st : IngestState) (fn : String), (findByFilename fn st.db).isSome = true →
      (findByFilename fn (es.foldl processFile st).db).isSome = true := by
  induction es with
  | nil => intro st fn h; exact h
  | cons e rest ih => intro st fn h; exact ih _ fn (processFile_db_mem st e fn h)

theorem processFile_ok_mem (st : IngestState) (e : FileEntry) (hok : entryOkB e = true) :
    (findByFilename e.name (processFile st e).db).isSome = true := by
  rcases processFile_cases st e with ⟨hok2, _, _⟩ | ⟨_, hok2, _⟩ | ⟨_, _, hcase⟩
  · rw [hok] at hok2; exact absurd hok2 (by simp)
  · rw [hok] at hok2; exact absurd hok2 (by simp)
  · rcases hcase with ⟨hmem, heq⟩ | ⟨r, _, hrn, heq⟩
    · rw [heq]; exact hmem
    · rw [heq]
      show (findByFilename e.name (st.db ++ [r])).isSome = true
      rw [findByFilename_append]
      cases hf : findByFilename e.name st.db with
      | some x => rfl
      | none => simp [findByFilename, hrn]

theorem foldl_ok_mem (es : List FileEntry) :
    ∀ (st : IngestState) (e : FileEntry), e ∈ es → entryOkB e = true →
      (findByFilename e.name (es.foldl processFile st).db).isSome = true := by
  induction es with
  | nil => intro st e he; exact absurd he (by simp)
  | cons e0 rest ih =>
    intro st e he hok
    rcases List.mem_cons.mp he with h | h
    · subst h
      exact foldl_db_mem rest _ _ (processFile_ok_mem st e hok)
    · exact ih (processFile st e0) e h hok

theorem countOk_cons (e : FileEntry) (es : List FileEntry) :
    countOk (e :: es) = (if entryOkB e = true then 1 else 0) + countOk es := by
  by_cases h : entryOkB e = true <;> simp [countOk, List.filter_cons, h, Nat.add_comm]

theorem countErr_cons (e : FileEntry) (es : List FileEntry) :
    countErr (e :: es) = (if entryErrB e = true then 1 else 0) + countErr es := by
  by_cases h : entryErrB e = true <;> simp [countErr, List.filter_cons, h, Nat.add_comm]

theorem foldl_counts (es : List FileEntry) :
    ∀ st : IngestState,
      (es.foldl processFile st).added + (es.foldl processFile st).skipped
          = st.added + st.skipped + countOk es
      ∧ (es.foldl processFile st).errors = st.errors + countErr es := by
  induction es with
  | nil => intro st; simp [countOk, countErr]
  | cons e rest ih =>
    intro st
    rw [List.foldl_cons, countOk_cons, countErr_cons]
    rcases processFile_cases st e with ⟨hok, herr, heq⟩ | ⟨herr, hok, ⟨ms, heq⟩⟩
      | ⟨hok, herr, hcase⟩
    · rw [heq]
      obtain ⟨i1, i2⟩ := ih st
      rw [hok, herr]
      simp only [Bool.false_eq_true, if_false]
      constructor <;> omega
    · rw [heq]
      obtain ⟨i1, i2⟩ := ih { st with errors := st.errors + 1, error_messages := st.error_messages ++ [ms] }
      rw [hok, herr]
      simp only [Bool.false_eq_true, if_false, if_true] at *
      constructor <;> omega
    · rcases hcase with ⟨_, heq⟩ | ⟨r, _, _, heq⟩
      · rw [heq]
        obtain ⟨i1, i2⟩ := ih { st with skipped := st.skipped + 1 }
        rw [hok, herr]
        simp only [Bool.false_eq_true, if_false, if_true] at *
        constructor <;> omega
      · rw [heq]
        obtain ⟨i1, i2⟩ := ih { st with db := st.db ++ [r], added := st.added + 1 }
        rw [hok, herr]
        simp only [Bool.false_eq_true, if_false, if_true] at *
        constructor <;> omega

theorem foldl_no_add (es : List FileEntry) :
    ∀ st : IngestState,
      (∀ e ∈ es, entryOkB e = true → (findByFilename e.name st.db).isSome = true) →
      (es.foldl processFile st).db = st.db
      ∧ (es.foldl processFile st).added = st.added
      ∧ (es.foldl processFile st).skipped = st.skipped + countOk es := by
  induction es with
  | nil => intro st _; simp [countOk]
  | cons e rest ih =>
    intro st h
    rw [List.foldl_cons, countOk_cons]
    rcases processFile_cases st e with ⟨hok, herr, heq⟩ | ⟨herr, hok, ⟨ms, heq⟩⟩
      | ⟨hok, herr, hcase⟩
    · rw [heq]
      obtain ⟨i1, i2, i3⟩ := ih st (fun x hx hb => h x (List.mem_cons_of_mem e hx) hb)
      refine ⟨i1, i2, ?_⟩
      rw [i3, hok]
      simp
    · rw [heq]
      obtain ⟨i1, i2, i3⟩ := ih { st with errors := st.errors + 1, error_messages := st.error_messages ++ [ms] }
        (fun x hx hb => h x (List.mem_cons_of_mem e hx) hb)
      refine ⟨i1, i2, ?_⟩
      rw [i3, hok]
      simp
    · rcases hcase with ⟨hmem, heq⟩ | ⟨r, hf, hrn, heq⟩
      · rw [heq]
        obtain ⟨i1, i2, i3⟩ := ih { st with skipped := st.skipped + 1 }
          (fun x hx hb => h x (List.mem_cons_of_mem e hx) hb)
        refine ⟨i1, i2, ?_⟩
        rw [i3, hok]
        simp only [if_true]
        omega
      · exact absurd (h e (List.mem_cons_self e rest) hok) (by simp [hf])

theorem findByFilename_none_not_mem (fn : String) (db : List CalibrationData)
    (h : findByFilename fn db = none) : fn ∉ filenamesOf db := by
  induction db with
  | nil => simp [filenamesOf]
  | cons r rest ih =>
    unfold findByFilename at h
    by_cases hr : r.filename = fn
    · rw [if_pos hr] at h; exact absurd h (by simp)
    · rw [if_neg hr] at h
      simp only [filenamesOf, List.map_cons, List.mem_cons, not_or]
      exact ⟨fun hh => hr hh.symm, by simpa [filenamesOf] using ih h⟩

theorem processFile_nodup (st : IngestState) (e : FileEntry)
    (h : (filenamesOf st.db).Nodup) : (filenamesOf (processFile st e).db).Nodup := by
  rcases processFile_cases st e with ⟨_, _, heq⟩ | ⟨_, _, ⟨ms, heq⟩⟩ | ⟨_, _, hcase⟩
  · rw [heq]; exact h
  · rw [heq]; exact h
  · rcases hcase with ⟨_, heq⟩ | ⟨r, hf, hrn, heq⟩
    · rw [heq]; exact h
    · rw [heq]
      show (filenamesOf (st.db ++ [r])).Nodup
      have hmap : filenamesOf (st.db ++ [r]) = filenamesOf st.db ++ [r.filename] := by
        simp [filenamesOf]
      rw [hmap]
      refine h.append (List.nodup_singleton r.filename) ?_
      rw [List.disjoint_singleton, hrn]
      exact findByFilename_none_not_mem e.name st.db hf

theorem foldl_nodup (es : List FileEntry) :
    ∀ st : IngestState, (filenamesOf st.db).Nodup →
      (filenamesOf (es.foldl processFile st).db).Nodup := by
  induction es with
  | nil => intro st h; exact h
  | cons e rest ih => intro st h; exact ih _ (processFile_nodup st e h)

/-- Claim C8: Ingestion is idempotent over an unchanged directory listing: when
a run starting from a store in which none of the listed files was already
present (so everything it counted beyond errors was added: `skipped = 0`)
adds `N = added` records, rerunning the same listing over the resulting store
adds nothing and skips exactly those `N` files; and if the starting store had
no duplicate filenames, neither does the store after the second run — two
files with the same filename never produce two records. -/
theorem ingestion_idempotent (entries : List FileEntry) (db0 : List CalibrationData)
    (hskip : (process_files entries db0).skipped = 0)
    (hnd : (filenamesOf db0).Nodup) :
    (process_files entries (process_files entries db0).db).added = 0
    ∧ (process_files entries (process_files entries db0).db).skipped
        = (process_files entries db0).added
    ∧ (filenamesOf (process_files entries (process_files entries db0).db).db).Nodup := by
  unfold process_files at hskip ⊢
  obtain ⟨c1, _⟩ := foldl_counts entries
    { db := db0, added := 0, skipped := 0, errors := 0, error_messages := [] }
  have hmem : ∀ e ∈ entries, entryOkB e = true →
      (findByFilename e.name
        ({ db := (entries.foldl processFile
            { db := db0, added := 0, skipped := 0, errors := 0, error_messages := [] }).db,
           added := 0, skipped := 0, errors := 0, error_messages := [] } : IngestState).db).isSome
        = true := by
    intro e he hb
    exact foldl_ok_mem entries
      { db := db0, added := 0, skipped := 0, errors := 0, error_messages := [] } e he hb
  obtain ⟨n1, n2, n3⟩ := foldl_no_add entries _ hmem
  refine ⟨n2, ?_, ?_⟩
  · rw [n3]
    simp only at c1 hskip ⊢
    omega
  · rw [n1]
    exact foldl_nodup entries
      { db := db0, added := 0, skipped := 0, errors := 0, error_messages := [] } hnd

/-- Claim C8 witness: The idempotence theorem at a concrete one-file directory
over an initially empty store. -/
theorem ingestion_idempotent_witness :
    (process_files sampleEntries (process_files sampleEntries []).db).added = 0
    ∧ (process_files sampleEntries (process_files sampleEntries []).db).skipped
        = (process_files sampleEntries []).added
    ∧ (filenamesOf (process_files sampleEntries (process_files sampleEntries []).db).db).Nodup :=
  ingestion_idempotent sampleEntries [] (by decide) (by decide)
